import Mathlib

/-!
Verification of the BFF archive reader (`bfflib`): a shallow embedding of the
error taxonomy (`src/error.rs`), the Huffman decoder (`src/huffman.rs`), the
archive scanner (`src/archive.rs`) and the filename reader (`src/bff.rs`),
with theorems settling the specification claims about them.

Conventions: a Rust byte (`u8`) is a `Nat` kept below 256, with `% 256` at
the points where the source performs wrapping `u8` arithmetic; a byte stream
is a `List Nat`; fallible operations return `Except Err`.
-/

namespace Bff

/-- Decidable equality for `Except`, used to evaluate concrete runs of the
embedded functions inside proofs. -/
instance {ε α : Type} [DecidableEq ε] [DecidableEq α] : DecidableEq (Except ε α) := fun a b =>
  match a, b with
  | .error x, .error y =>
    if h : x = y then .isTrue (by rw [h]) else .isFalse (by intro hc; cases hc; exact h rfl)
  | .ok x, .ok y =>
    if h : x = y then .isTrue (by rw [h]) else .isFalse (by intro hc; cases hc; exact h rfl)
  | .error _, .ok _ => .isFalse (by intro hc; cases hc)
  | .ok _, .error _ => .isFalse (by intro hc; cases hc)

/-- Kind of an underlying I/O error, as inspected by the source via
`std::io::ErrorKind` (only `UnexpectedEof` is ever distinguished). -/
inductive IoKind
  | unexpectedEof
  | other
deriving DecidableEq

/-- The library error enum `Error` from `src/error.rs`, restricted to the
variants that the modelled code paths can produce or inspect.  `modeError`
drops the boxed payload, `invalidRecordMagic` keeps the magic number, and
`ioError` keeps the error kind.  `panicked` is not a source variant: it
models a Rust panic (the `self.treelevels -= 1` underflow in
`parse_header` when the level-count byte is 0). -/
inductive Err
  | invalidFileMagic (magic : Nat)
  | invalidRecordMagic (magic : Nat)
  | invalidRecord
  | emptyFilename
  | badSymbolTable
  | invalidLevelIndex
  | invalidTreelevel
  | fileToBig
  | fileNotFound
  | unsupportedFileType
  | modeError
  | missingParentDir
  | ioError (kind : IoKind)
  | panicked
deriving DecidableEq

/-! ## Huffman decoder state (`HuffmanDecoder`, src/huffman.rs lines 11-26)

`input` is the remaining compressed byte stream (the `reader` field: the
decoder owns a bounded reader, and reading past its end is the only way it
can fail, with `UnexpectedEof`).  `symbol_size` is omitted: after header
parsing it is never used again. -/

structure HuffmanDecoder where
  input : List Nat
  code : Nat
  level : Nat
  treelevels : Nat
  inodesin : List Nat
  symbolsin : List Nat
  tree : List (List Nat)
  treelens : List Nat
  offsetBuf : List Nat
deriving DecidableEq

/-- `read_exact` into a buffer of `k` bytes, on a pure byte list:
succeeds iff `k` bytes remain. -/
def readN (k : Nat) (l : List Nat) : Option (List Nat × List Nat) :=
  if k ≤ l.length then some (l.take k, l.drop k) else none

/-- The symbol-reading loop of `parse_header` (lines 72-79): for each level
`i`, read `symbolsin[i]` literal bytes as that level's symbol values. -/
def readTree : List Nat → List Nat → Option (List (List Nat) × List Nat)
  | [], r => some ([], r)
  | c :: cs, r =>
    match readN c r with
    | none => none
    | some (syms, r1) =>
      match readTree cs r1 with
      | none => none
      | some (t, r2) => some (syms :: t, r2)

/-- `fill_inodesin` (lines 88-95), computed from the final `symbolsin` list:
`inodesin[maxLevel] = 0` and, going up,
`inodesin[l] = (inodesin[l+1] + symbolsin[l+1]) / 2` with wrapping `u8`
addition. -/
def inodesFrom : List Nat → List Nat
  | [] => []
  | [_] => [0]
  | _ :: s1 :: rest =>
    let tl := inodesFrom (s1 :: rest)
    (((tl.headD 0 + s1) % 256) / 2) :: tl

/-- `HuffmanDecoder::parse_header` (src/huffman.rs lines 50-86), which is all
that `HuffmanDecoder::new` does beyond field initialisation.  Reads the
level-count byte, the per-level symbol counts, checks
`symbol_size = 1 + sum > 256` (`BadSymbolTable`), increments the deepest
level's count, reads each level's symbol bytes, increments the deepest
level's count a second time, and derives `inodesin` and `treelens`. -/
def parse_header : List Nat → Except Err HuffmanDecoder
  | [] => .error (.ioError .unexpectedEof)
  | b0 :: r0 =>
    if b0 = 0 then .error .panicked
    else
      let maxL := b0 - 1
      match readN b0 r0 with
      | none => .error (.ioError .unexpectedEof)
      | some (counts, r1) =>
        if 256 < 1 + counts.sum then .error .badSymbolTable
        else
          let counts1 := counts.set maxL ((counts.getD maxL 0 + 1) % 256)
          match readTree counts1 r1 with
          | none => .error (.ioError .unexpectedEof)
          | some (tree, r2) =>
            let counts2 := counts1.set maxL ((counts1.getD maxL 0 + 1) % 256)
            .ok { input := r2
                  code := 0
                  level := 0
                  treelevels := maxL
                  inodesin := inodesFrom counts2
                  symbolsin := counts2
                  tree := tree
                  treelens := tree.map List.length
                  offsetBuf := [] }

/-- Bit `i` of byte `b`: `(b >> i) & 1`. -/
def bitOf (b i : Nat) : Nat := (b >>> i) &&& 1

/-- The inner bit loop of `HuffmanDecoder::read` (src/huffman.rs lines
125-151): process the bits of `byte` listed in `bits` (most significant
first).  Returns `(early, code, level, currentOut, written, obuf)` where
`early = some r` models a `return r` out of the whole `read` call and
`none` means the loop over this byte finished.  `written` are the bytes
stored into the caller's buffer, `obuf` is `offset_buf`.  Note that both
early returns and the end-of-stream return leave `code` and `level` as they
are at that moment (no reset happens before a `return`). -/
def decodeBits (tbl : HuffmanDecoder) (byte : Nat) (bits : List Nat) (bufSize : Nat)
    (code level currentOut : Nat) (written obuf : List Nat) :
    Option (Except Err (Nat × List Nat)) × Nat × Nat × Nat × List Nat × List Nat :=
  match bits with
  | [] => (none, code, level, currentOut, written, obuf)
  | i :: rest =>
    let c1 := ((code * 2) % 256) ||| bitOf byte i
    if tbl.inodesin.getD level 0 ≤ c1 then
      let idx := c1 - tbl.inodesin.getD level 0
      if tbl.symbolsin.getD level 0 < idx then
        (some (.error .invalidLevelIndex), c1, level, currentOut, written, obuf)
      else if tbl.treelens.getD level 0 ≤ idx then
        -- "Hopefully the end of the file": return Ok(current_out), unclamped
        (some (.ok (currentOut, written)), c1, level, currentOut, written, obuf)
      else
        let sym := (tbl.tree.getD level []).getD idx 0
        if bufSize ≤ currentOut then
          decodeBits tbl byte rest bufSize 0 0 (currentOut + 1) written (obuf ++ [sym])
        else
          decodeBits tbl byte rest bufSize 0 0 (currentOut + 1) (written ++ [sym]) obuf
    else
      let l1 := level + 1
      if tbl.treelevels < l1 then
        (some (.error .invalidTreelevel), c1, l1, currentOut, written, obuf)
      else
        decodeBits tbl byte rest bufSize c1 l1 currentOut written obuf

/-- The `while current_out < buf_size` loop of `HuffmanDecoder::read`
(lines 119-152), with the remaining input passed explicitly.  A failed
`read_exact` (empty input) matches `ErrorKind::UnexpectedEof` and returns
`Ok(current_out)`; loop exit returns `Ok(min(current_out, buf_size))`. -/
def readLoop (tbl : HuffmanDecoder) (input : List Nat) (bufSize currentOut : Nat)
    (written : List Nat) (code level : Nat) (obuf : List Nat) :
    Except Err (Nat × List Nat) × HuffmanDecoder :=
  if currentOut < bufSize then
    match input with
    | [] =>
      (.ok (currentOut, written),
        { tbl with input := [], code := code, level := level, offsetBuf := obuf })
    | b :: rest =>
      match decodeBits tbl b [7, 6, 5, 4, 3, 2, 1, 0] bufSize code level currentOut written obuf with
      | (some r, c1, l1, _, _, ob1) =>
        (r, { tbl with input := rest, code := c1, level := l1, offsetBuf := ob1 })
      | (none, c1, l1, co1, w1, ob1) =>
        readLoop tbl rest bufSize co1 w1 c1 l1 ob1
  else
    (.ok (min currentOut bufSize, written),
      { tbl with input := input, code := code, level := level, offsetBuf := obuf })

/-- `<HuffmanDecoder as Read>::read` (src/huffman.rs lines 99-154) with a
caller buffer of `bufSize` bytes.  Returns the `Ok` count or error,
together with the list of bytes actually written into the buffer (in order)
and the post-call decoder state.  First the overflow buffer from the
previous call is drained into the buffer; if it alone fills the buffer the
call returns immediately, otherwise the decode loop runs with `current_out`
starting at the initial `offset_buf` length. -/
def HuffmanDecoder.read (s : HuffmanDecoder) (bufSize : Nat) :
    Except Err (Nat × List Nat) × HuffmanDecoder :=
  let co0 := s.offsetBuf.length
  let offsetReadLen := min bufSize s.offsetBuf.length
  let written0 := s.offsetBuf.take offsetReadLen
  let obuf1 := s.offsetBuf.drop offsetReadLen
  if offsetReadLen = bufSize then
    (.ok (offsetReadLen, written0), { s with offsetBuf := obuf1 })
  else
    readLoop s s.input bufSize co0 written0 s.code s.level obuf1

/-! ## Byte streams

The archive functions are generic over `R: Read + Seek`.  We model the
source as a finite byte list with a cursor, plus an optional fault
position: a read whose window covers `failPos` fails with a non-EOF I/O
error, modelling an underlying reader that can fail with errors other than
`UnexpectedEof`.  Reading past the end fails with `UnexpectedEof` (the
error `read_exact` reports on a clean end of data); seeking is moving the
cursor and never fails. -/

structure ByteStream where
  data : List Nat
  failPos : Option Nat
  pos : Nat
deriving DecidableEq

/-- Does a read of `k` bytes starting at the cursor touch the fault
position? -/
def hitsFault (s : ByteStream) (k : Nat) : Bool :=
  match s.failPos with
  | none => false
  | some f => decide (s.pos ≤ f ∧ f < s.pos + k)

/-- `read_exact` of `k` bytes on a stream. -/
def readExactS (k : Nat) (s : ByteStream) : Except Err (List Nat) × ByteStream :=
  if hitsFault s k then (.error (.ioError .other), s)
  else if s.pos + k ≤ s.data.length then
    (.ok ((s.data.drop s.pos).take k), { s with pos := s.pos + k })
  else
    (.error (.ioError .unexpectedEof), { s with pos := s.data.length })

/-- `Read::read` into a `k`-byte buffer: reads `min k remaining` bytes,
returning 0 bytes (not an error) at end of data. -/
def readSomeS (k : Nat) (s : ByteStream) : Except Err (List Nat) × ByteStream :=
  if hitsFault s (min k (s.data.length - s.pos)) then (.error (.ioError .other), s)
  else (.ok ((s.data.drop s.pos).take (min k (s.data.length - s.pos))),
    { s with pos := s.pos + min k (s.data.length - s.pos) })

/-! ## Filename reading (`src/bff.rs`) -/

/-- The scan of one 8-byte chunk in `read_aligned_string` (lines 146-152):
`for c in data { if c == 0 { return ... } result.push(c) }`.  Returns
whether a NUL was found and the bytes collected before it. -/
def splitZero : List Nat → Bool × List Nat
  | [] => (false, [])
  | b :: t =>
    if b = 0 then (true, [])
    else
      let (f, l) := splitZero t
      (f, b :: l)

/-- `str::find` over the byte string for the separator predicate of
`first_segment` (`'\n' | '\t' | '\x0B'`, bytes 10, 9, 11). -/
def findSep : List Nat → Option Nat
  | [] => none
  | b :: t =>
    if b = 10 ∨ b = 9 ∨ b = 11 then some 0
    else (findSep t).map (· + 1)

/-- `first_segment` (src/bff.rs lines 157-163): the prefix strictly before
the first newline, horizontal tab or vertical tab, or the whole string if
none occurs. -/
def first_segment (l : List Nat) : List Nat :=
  match findSep l with
  | some i => l.take i
  | none => l

/-- The chunk loop of `read_aligned_string` (src/bff.rs lines 139-153).
`buf` is the persistent 8-byte array `data` (initialised to zeroes; a short
read leaves the unread tail stale).  Each round reads up to 8 bytes; a
0-byte read ends the string, otherwise the (partially refreshed) array is
scanned for a NUL.  `fuel` bounds the recursion; `read_aligned_string`
passes enough fuel that it is never exhausted (each non-final round
consumes at least one input byte). -/
def readAlignedLoop : Nat → ByteStream → List Nat → List Nat →
    Except Err (List Nat) × ByteStream
  | 0, s, _, _ => (.error (.ioError .other), s)
  | fuel + 1, s, buf, acc =>
    match readSomeS 8 s with
    | (.error e, s1) => (.error e, s1)
    | (.ok chunk, s1) =>
      if chunk.length = 0 then (.ok acc, s1)
      else
        let newbuf := chunk ++ buf.drop chunk.length
        match splitZero newbuf with
        | (true, pre) => (.ok (acc ++ pre), s1)
        | (false, _) => readAlignedLoop fuel s1 newbuf (acc ++ newbuf)

/-- `read_aligned_string` (src/bff.rs lines 137-154): collect the name
bytes as above, then keep only the first segment. -/
def read_aligned_string (s : ByteStream) : Except Err (List Nat) × ByteStream :=
  let r := readAlignedLoop (s.data.length - s.pos + 1) s (List.replicate 8 0) []
  (r.1.map first_segment, r.2)

/-! ## Archive scanning (`src/archive.rs`) -/

/-- Little-endian 32-bit field of a packed struct, at byte offset `i` of
the raw bytes `l` (the `repr(C, packed)` structs are filled by
`util::read_struct` from the raw bytes in memory order). -/
def le32 (l : List Nat) (i : Nat) : Nat :=
  l.getD i 0 + 256 * l.getD (i + 1) 0 + 65536 * l.getD (i + 2) 0
    + 16777216 * l.getD (i + 3) 0

/-- The fields of `Record`/`RecordData` that the modelled operations use.
Timestamps stay as raw epoch seconds (the chrono conversion in
`RecordData::from` is presentation only). -/
structure RecordT where
  filename : List Nat
  compressed_size : Nat
  size : Nat
  mode : Nat
  uid : Nat
  gid : Nat
  atime : Nat
  mtime : Nat
  file_position : Nat
  magic : Nat
deriving DecidableEq

/-- The metadata phase of `read_next_record` (src/archive.rs lines 40-50):
read the 64-byte `RecordHeader`, check the sentinel byte `unk01 == 0x0b`
(`InvalidRecord`) and the magic (bytes 2-3, little endian; one of
`HEADER_MAGICS = [0xEA6B, 0xEA6C, 0xEA6D]`, else `InvalidRecordMagic`),
then read the aligned filename and the 40-byte `RecordTrailer`.  The
stream returned on success is positioned directly after the trailer. -/
def read_record_meta (s : ByteStream) :
    Except Err (List Nat × List Nat) × ByteStream :=
  match readExactS 64 s with
  | (.error e, s1) => (.error e, s1)
  | (.ok hdr, s1) =>
    if hdr.getD 1 0 ≠ 0x0b then (.error .invalidRecord, s1)
    else
      let magic := hdr.getD 2 0 + 256 * hdr.getD 3 0
      if magic = 0xEA6B ∨ magic = 0xEA6C ∨ magic = 0xEA6D then
        match read_aligned_string s1 with
        | (.error e, s2) => (.error e, s2)
        | (.ok name, s2) =>
          match readExactS 40 s2 with
          | (.error e, s3) => (.error e, s3)
          | (.ok _, s3) => (.ok (hdr, name), s3)
      else (.error (.invalidRecordMagic magic), s1)

/-- `read_next_record` (src/archive.rs lines 40-70).  After the metadata
phase, the stream position is recorded as the payload offset (`as u32`,
hence `% 2^32`); if the declared `size` is non-zero the cursor seeks
forward by `compressed_size`; then it seeks forward by the padding
`((compressed_size + 7) & !7) - compressed_size`, both computed in
wrapping `u32` arithmetic.  The payload bytes themselves are never read. -/
def read_next_record (s : ByteStream) : Except Err RecordT × ByteStream :=
  match read_record_meta s with
  | (.error e, s1) => (.error e, s1)
  | (.ok (hdr, name), s3) =>
    let position := s3.pos
    let size := le32 hdr 24
    let csize := le32 hdr 56
    let s4 := if 0 < size then { s3 with pos := s3.pos + csize } else s3
    let alignedUp := (((csize + 7) % 4294967296) / 8) * 8
    let pad := (alignedUp + 4294967296 - csize) % 4294967296
    (.ok { filename := name
           compressed_size := csize
           size := size
           mode := le32 hdr 12
           uid := le32 hdr 16
           gid := le32 hdr 20
           atime := le32 hdr 28
           mtime := le32 hdr 32
           file_position := position % 4294967296
           magic := hdr.getD 2 0 + 256 * hdr.getD 3 0 },
      { s4 with pos := s4.pos + pad })

/-- The `loop` of `read_records` (src/archive.rs lines 73-91): push parsed
records; absorb `InvalidRecord` and `InvalidRecordMagic`; stop successfully
on an `UnexpectedEof` I/O error; propagate any other error.  `fuel` bounds
the recursion (the Rust loop terminates because every non-final round
consumes at least the 64 header bytes); on exhaustion the collected records
are returned. -/
def read_records_go : Nat → ByteStream → List RecordT → Except Err (List RecordT)
  | 0, _, acc => .ok acc
  | fuel + 1, s, acc =>
    match read_next_record s with
    | (.ok rec, s1) => read_records_go fuel s1 (acc ++ [rec])
    | (.error .invalidRecord, s1) => read_records_go fuel s1 acc
    | (.error (.invalidRecordMagic _), s1) => read_records_go fuel s1 acc
    | (.error (.ioError .unexpectedEof), _) => .ok acc
    | (.error e, _) => .error e

/-- `read_records`, with fuel ample for the stream length. -/
def read_records (s : ByteStream) : Except Err (List RecordT) :=
  read_records_go (s.data.length / 64 + 1) s []

/-! ## Record content readers (`make_record_reader`, src/archive.rs 113-142) -/

/-- File types of `file_mode::FileType`, as derived from the `S_IFMT` bits
of the mode word. -/
inductive FType
  | fifo
  | char
  | directory
  | block
  | regular
  | symlink
  | socket
deriving DecidableEq

/-- `Mode::file_type` of the `file_mode` crate: dispatch on the high type
nibble `(mode & 0o170000) >> 12`; unknown patterns give `none`. -/
def file_type (mode : Nat) : Option FType :=
  match mode / 4096 % 16 with
  | 1 => some .fifo
  | 2 => some .char
  | 4 => some .directory
  | 6 => some .block
  | 8 => some .regular
  | 10 => some .symlink
  | 12 => some .socket
  | _ => none

/-- `HUFFMAN_MAGIC` (src/bff.rs line 7). -/
def HUFFMAN_MAGIC : Nat := 0xEA6C

/-- The reader returned for a record's content: either the bounded raw
bytes, or a Huffman decoder over them (`RecordReader`, src/archive.rs
lines 344-347). -/
inductive RecordReader
  | raw (bytes : List Nat)
  | huffman (dec : HuffmanDecoder)
deriving DecidableEq

/-- `make_record_reader_raw` (src/archive.rs lines 124-142): only regular
files are readable (`UnsupportedFileType` otherwise); the source is seeked
to `file_position` and bounded by `take(compressed_size)` — modelled as the
byte slice of that window — and wrapped in `HuffmanDecoder::new` iff the
record magic is `HUFFMAN_MAGIC` and `raw` is not set (propagating header
parse errors). -/
def make_record_reader_raw (s : ByteStream) (rec : RecordT) (raw : Bool) :
    Except Err RecordReader :=
  match file_type rec.mode with
  | some .regular =>
    let bounded := (s.data.drop rec.file_position).take rec.compressed_size
    if rec.magic = HUFFMAN_MAGIC ∧ raw = false then
      match parse_header bounded with
      | .error e => .error e
      | .ok dec => .ok (.huffman dec)
    else .ok (.raw bounded)
  | _ => .error .unsupportedFileType

/-- `make_record_reader` (src/archive.rs lines 114-119). -/
def make_record_reader (s : ByteStream) (rec : RecordT) : Except Err RecordReader :=
  make_record_reader_raw s rec false

/-! ## Attributes (`src/attribute.rs` and `set_file_attributes`) -/

/-- `ATTRIBUTE_NONE` (src/attribute.rs line 4). -/
def ATTRIBUTE_NONE : Nat := 0

/-- `ATTRIBUTE_PERMISSIONS` (src/attribute.rs line 6). -/
def ATTRIBUTE_PERMISSIONS : Nat := 1

/-- `ATTRIBUTE_OWNERS` (src/attribute.rs line 8). -/
def ATTRIBUTE_OWNERS : Nat := 2

/-- `ATTRIBUTE_TIMESTAMPS` (src/attribute.rs line 10). -/
def ATTRIBUTE_TIMESTAMPS : Nat := 4

/-- `ATTRIBUTE_DEFAULT` (src/attribute.rs line 12). -/
def ATTRIBUTE_DEFAULT : Nat := ATTRIBUTE_TIMESTAMPS

/-- The OS metadata of one filesystem entry that `set_file_attributes` can
touch: permission bits, owner uid/gid, access and modification times. -/
structure FileMeta where
  permBits : Nat
  owner_uid : Nat
  owner_gid : Nat
  accessTime : Nat
  modifyTime : Nat
deriving DecidableEq

/-- `set_file_attributes` (src/archive.rs lines 144-164) as a transformer
of the destination's metadata (the unix build: all three flag branches
present), assuming each syscall succeeds: `set_file_times` from the
record's adate/mdate if the timestamps flag is set, then `chown` if the
owners flag is set, then `set_mode` if the permissions flag is set. -/
def set_file_attributes (meta : FileMeta) (record : RecordT) (attributes : Nat) : FileMeta :=
  let m1 :=
    if 0 < attributes &&& ATTRIBUTE_TIMESTAMPS then
      { meta with accessTime := record.atime, modifyTime := record.mtime }
    else meta
  let m2 :=
    if 0 < attributes &&& ATTRIBUTE_OWNERS then
      { m1 with owner_uid := record.uid, owner_gid := record.gid }
    else m1
  if 0 < attributes &&& ATTRIBUTE_PERMISSIONS then
    { m2 with permBits := record.mode }
  else m2

/-! ## Extraction engine (`extract_file_with_attr`, `extract_when_with_attr`)

`extract_file_with_attr` touches the filesystem; its effectful calls are
modelled by per-record outcome fields.  Each field stands for the result of
one call made by the source for this record and destination:
`hasParent` for `destination.parent().is_some()`, `createDirErr` for the
`create_dir_all` call of whichever branch runs, `contentErr` for
`make_record_reader` plus the `extract_file` copy (their errors are I/O
errors or Huffman header errors, never `EmptyFilename`/`ModeError`), and
`attrErr` for the `io::Result` of `set_file_attributes`, whose error is
converted by `?` into `Error::IoError`. -/

/-- Errors of the content step (`make_record_reader` + `extract_file`). -/
inductive ContentErr
  | io (kind : IoKind)
  | badTable
deriving DecidableEq

/-- A record together with the outcomes of the filesystem calls its
extraction would make. -/
structure RecordM where
  ftype : Option FType
  hasParent : Bool
  createDirErr : Option IoKind
  contentErr : Option ContentErr
  attrErr : Option IoKind
deriving DecidableEq

/-- `Archive::extract_file_with_attr` (src/archive.rs lines 260-289):
directories are created; regular files need a parent directory
(`MissingParentDir` if `destination.parent()` is `None`), parent creation,
then the content copy; any other file type is `UnsupportedFileType`.  On
success of that match, `set_file_attributes(...)?` runs, its I/O error
surfacing as `Error::IoError`. -/
def extract_file_with_attr (r : RecordM) (_attributes : Nat) : Except Err Unit :=
  let step : Except Err Unit :=
    match r.ftype with
    | some .directory =>
      match r.createDirErr with
      | none => .ok ()
      | some k => .error (.ioError k)
    | some .regular =>
      if r.hasParent = false then .error .missingParentDir
      else
        match r.createDirErr with
        | some k => .error (.ioError k)
        | none =>
          match r.contentErr with
          | some (.io k) => .error (.ioError k)
          | some .badTable => .error .badSymbolTable
          | none => .ok ()
    | _ => .error .unsupportedFileType
  match step with
  | .error e => .error e
  | .ok _ =>
    match r.attrErr with
    | some k => .error (.ioError k)
    | none => .ok ()

/-- `Archive::extract_when_with_attr` (src/archive.rs lines 314-340): for
each selected record, run `extract_file_with_attr`; `EmptyFilename`,
`ModeError` and `MissingParentDir` are printed and skipped, any other
error is returned, ending the loop. -/
def extract_when_with_attr (records : List RecordM) (attributes : Nat)
    (when : RecordM → Bool) : Except Err Unit :=
  match records with
  | [] => .ok ()
  | r :: rs =>
    if when r then
      match extract_file_with_attr r attributes with
      | .error .emptyFilename => extract_when_with_attr rs attributes when
      | .error .modeError => extract_when_with_attr rs attributes when
      | .error .missingParentDir => extract_when_with_attr rs attributes when
      | .error e => .error e
      | .ok _ => extract_when_with_attr rs attributes when
    else extract_when_with_attr rs attributes when

/-- `Archive::extract_file` (src/archive.rs lines 251-257): extraction of
one record with the default attribute mask. -/
def extract_file (r : RecordM) : Except Err Unit :=
  extract_file_with_attr r ATTRIBUTE_DEFAULT

/-- `Archive::extract` via `extract_when` (src/archive.rs lines 292-309):
whole-archive extraction, default attributes, predicate always true. -/
def extract (records : List RecordM) : Except Err Unit :=
  extract_when_with_attr records ATTRIBUTE_DEFAULT (fun _ => true)

-- Sanity checks against hand-decoded streams (removed content markers kept
-- as examples so they are compiled, not evaluated interactively).
example : parse_header [1, 0, 97, 1] =
    .ok { input := [1], code := 0, level := 0, treelevels := 0, inodesin := [0],
          symbolsin := [2], tree := [[97]], treelens := [1], offsetBuf := [] } := by
  decide

example : parse_header [2, 1, 0, 97, 98, 254] =
    .ok { input := [254], code := 0, level := 0, treelevels := 1, inodesin := [1, 0],
          symbolsin := [1, 2], tree := [[97], [98]], treelens := [1, 1], offsetBuf := [] } := by
  decide

/-! ## Shared lemmas -/

theorem readN_some {k : Nat} {l b r : List Nat} (h : readN k l = some (b, r)) :
    k ≤ l.length ∧ b = l.take k ∧ r = l.drop k := by
  unfold readN at h
  split at h
  · next hk =>
    simp only [Option.some.injEq, Prod.mk.injEq] at h
    exact ⟨hk, h.1.symm, h.2.symm⟩
  · cases h

theorem readN_of_length (l r : List Nat) : readN l.length (l ++ r) = some (l, r) := by
  unfold readN
  rw [if_pos (by simp), List.take_left, List.drop_left]

theorem readN_some_length {k : Nat} {l b r : List Nat} (h : readN k l = some (b, r)) :
    b.length = k := by
  obtain ⟨hk, hb, _⟩ := readN_some h
  subst hb
  simp [List.length_take, Nat.min_eq_left hk]

theorem readTree_lengths : ∀ (cs r : List Nat) {t : List (List Nat)} {r2 : List Nat},
    readTree cs r = some (t, r2) → t.map List.length = cs := by
  intro cs
  induction cs with
  | nil =>
    intro r t r2 h
    unfold readTree at h
    simp only [Option.some.injEq, Prod.mk.injEq] at h
    rw [← h.1]
    rfl
  | cons c cs ih =>
    intro r t r2 h
    unfold readTree at h
    cases hN : readN c r with
    | none => rw [hN] at h; cases h
    | some p =>
      obtain ⟨syms, r1⟩ := p
      rw [hN] at h
      dsimp only at h
      cases hT : readTree cs r1 with
      | none => rw [hT] at h; cases h
      | some q =>
        obtain ⟨t1, r3⟩ := q
        rw [hT] at h
        dsimp only at h
        simp only [Option.some.injEq, Prod.mk.injEq] at h
        rw [← h.1]
        simp only [List.map]
        rw [readN_some_length hN, ih r1 hT]

theorem getD_set_self (l : List Nat) (i v : Nat) (h : i < l.length) :
    (l.set i v).getD i 0 = v := by
  rw [List.getD_eq_getElem?_getD]
  simp [List.getElem?_set_self, h]

/-! ## Claim C1 -/

/-- The decoder state produced by parsing the header `[1, 0, 97]`: one tree
level with stored symbol count 0 and symbol value 97; the remaining input
is the payload byte `0x01`. -/
def c1state : HuffmanDecoder :=
  { input := [1], code := 0, level := 0, treelevels := 0, inodesin := [0],
    symbolsin := [2], tree := [[97]], treelens := [1], offsetBuf := [] }

/-- C1: the output of `HuffmanDecoder::read` is NOT independent of how it is
partitioned into pull calls — the code violates the claim (and the `Read`
contract) on the payload `[1, 0, 97, 1]`.  A single 16-byte pull returns
exactly the 7 decoded bytes.  A 1-byte pull returns the count 7 for a
1-byte buffer (the sentinel-path `return Ok(current_out)` misses the
`min(current_out, buf_size)` clamp applied at normal loop exit), while only
one byte was written; the 6 overflow bytes stay queued in `offset_buf` and
are emitted again by the following calls, so the per-contract concatenation
of the returned bytes duplicates output instead of reproducing it. -/
theorem huffman_read_partition_bug :
    parse_header [1, 0, 97, 1] = .ok c1state ∧
    (c1state.read 16).1 = .ok (7, [97, 97, 97, 97, 97, 97, 97]) ∧
    (c1state.read 1).1 = .ok (7, [97]) ∧
    (c1state.read 1).2.offsetBuf = [97, 97, 97, 97, 97, 97] := by
  decide

/-! ## Claim C3 -/

/-- The decoder state produced by parsing `[1, 0, 97]` (stored symbol count
0 at the only level). -/
def c3state : HuffmanDecoder :=
  { input := [], code := 0, level := 0, treelevels := 0, inodesin := [0],
    symbolsin := [2], tree := [[97]], treelens := [1], offsetBuf := [] }

/-- C3 counterexample: for the header `[1, 0, 97]` with stored deepest-level
count 0, after parsing `symbolsin[maxLevel]` is 2, not the claimed
`stored + 1 = 1`, and 1 literal symbol byte was read for that level
(`treelens[maxLevel] = 1`), not the claimed stored count 0: the
`symbolsin[treelevels] += 1` increment is applied twice, once before and
once after the symbol bytes are read. -/
theorem parse_header_extra_slot_cex :
    parse_header [1, 0, 97] = .ok c3state ∧
    c3state.symbolsin.getD 0 0 ≠ 0 + 1 ∧
    c3state.treelens.getD 0 0 ≠ 0 := by
  decide

/-- C3 amended: for every successfully parsed header with level-count byte
`n` and stored per-level counts `counts`, the deepest level reads
`(counts[n-1] + 1) % 256` literal symbol bytes (one more than stored) and
ends with its count incremented twice, while every shallower level `i`
reads exactly `counts[i]` bytes and keeps `symbolsin[i] = counts[i]`
(both facts read off the returned `treelens` and `symbolsin` lists). -/
theorem parse_header_symbol_counts (n : Nat) (counts rest : List Nat) (s : HuffmanDecoder)
    (hlen : counts.length = n) (h : parse_header (n :: counts ++ rest) = .ok s) :
    s.treelens = counts.set (n - 1) ((counts.getD (n - 1) 0 + 1) % 256) ∧
    s.symbolsin = (counts.set (n - 1) ((counts.getD (n - 1) 0 + 1) % 256)).set (n - 1)
      (((counts.getD (n - 1) 0 + 1) % 256 + 1) % 256) := by
  subst hlen
  rw [List.cons_append] at h
  simp only [parse_header] at h
  by_cases h0 : counts.length = 0
  · rw [if_pos h0] at h
    cases h
  · rw [if_neg h0, readN_of_length] at h
    dsimp only at h
    split at h
    · cases h
    · set counts1 := counts.set (counts.length - 1)
        ((counts.getD (counts.length - 1) 0 + 1) % 256) with hc1
      cases hT : readTree counts1 (rest) with
      | none => rw [hT] at h; cases h
      | some q =>
        obtain ⟨tree, r2⟩ := q
        rw [hT] at h
        simp only [Except.ok.injEq] at h
        have hc1len : counts1.length = counts.length := by
          rw [hc1]; exact List.length_set counts _ _
        have hgd : counts1.getD (counts.length - 1) 0 =
            (counts.getD (counts.length - 1) 0 + 1) % 256 := by
          rw [hc1]
          exact getD_set_self counts _ _ (by omega)
        constructor
        · rw [← h]
          simpa using readTree_lengths counts1 rest hT
        · rw [← h]
          simp only
          rw [hgd]

/-- C3 witness: the amended statement evaluated on the header `[1, 0, 97]`. -/
theorem parse_header_symbol_counts_witness :
    c3state.treelens = ([0] : List Nat).set 0 ((([0] : List Nat).getD 0 0 + 1) % 256) ∧
    c3state.symbolsin = (([0] : List Nat).set 0 ((([0] : List Nat).getD 0 0 + 1) % 256)).set 0
      (((([0] : List Nat).getD 0 0 + 1) % 256 + 1) % 256) :=
  parse_header_symbol_counts 1 [0] [97] c3state (by decide) (by decide)

/-! ## Claim C4 -/

/-- The decoder state produced by parsing `[2, 1, 0, 97, 98]`: codes are
`1 ↦ 97`, `00 ↦ 98`, `01 ↦ end of stream`; the remaining input is the
payload byte `0xFE` (seven `1` bits, then a single `0` bit that only
descends one level). -/
def c4state : HuffmanDecoder :=
  { input := [254], code := 0, level := 0, treelevels := 1, inodesin := [1, 0],
    symbolsin := [1, 2], tree := [[97], [98]], treelens := [1, 1], offsetBuf := [] }

/-- C4 counterexample: decoding `[2, 1, 0, 97, 98, 254]` hits the end of the
compressed input in the middle of a symbol (the final `0` bit leaves the
decoder at `level = 1` with a pending code), yet `read` returns the seven
bytes produced so far as a successful result instead of propagating the
input error the claim requires. -/
theorem huffman_read_mid_symbol_eof_cex :
    parse_header [2, 1, 0, 97, 98, 254] = .ok c4state ∧
    (c4state.read 16).1 = .ok (7, [97, 97, 97, 97, 97, 97, 97]) ∧
    (c4state.read 16).2.level = 1 ∧
    (c4state.read 16).2.input = [] := by
  decide

/-- C4 amended: when the compressed input is exhausted before the
end-of-stream sentinel, `read` returns the bytes produced so far as a
normal successful end regardless of whether the stop happens at a clean
symbol boundary — the `UnexpectedEof` from `read_exact` is always turned
into `Ok(current_out)`, and the partially decoded accumulator state is
simply retained. -/
theorem huffman_read_eof_is_ok (s : HuffmanDecoder) (bufSize : Nat) (h : s.input = []) :
    ∃ p, (s.read bufSize).1 = .ok p := by
  unfold HuffmanDecoder.read
  dsimp only
  split
  · exact ⟨_, rfl⟩
  · rw [h]
    unfold readLoop
    split
    · exact ⟨_, rfl⟩
    · exact ⟨_, rfl⟩

/-- C4 witness: the amended statement on a concrete mid-symbol state with
exhausted input. -/
theorem huffman_read_eof_is_ok_witness :
    ∃ p, (HuffmanDecoder.read
      { input := [], code := 0, level := 1, treelevels := 1, inodesin := [1, 0],
        symbolsin := [1, 2], tree := [[97], [98]], treelens := [1, 1],
        offsetBuf := [3] } 4).1 = .ok p :=
  huffman_read_eof_is_ok _ 4 rfl

/-! ## Claim C8 -/

/-- C8: header parsing fails with `BadSymbolTable` if and only if the sum of
the per-level symbol counts stored in the stream, plus 1, exceeds 256; in
particular no header whose counts sum to 255 or less can produce that
error. -/
theorem parse_header_bad_symbol_table (n : Nat) (counts rest : List Nat)
    (hlen : counts.length = n) :
    (parse_header (n :: counts ++ rest) = .error .badSymbolTable ↔
      256 < counts.sum + 1) := by
  subst hlen
  rw [List.cons_append]
  simp only [parse_header]
  by_cases h0 : counts.length = 0
  · rw [if_pos h0]
    have : counts = [] := List.eq_nil_of_length_eq_zero h0
    subst this
    simp
  · rw [if_neg h0, readN_of_length]
    dsimp only
    split
    · next hsum =>
      constructor
      · intro _; omega
      · intro _; rfl
    · next hsum =>
      constructor
      · intro h
        cases hT : readTree (counts.set (counts.length - 1)
            ((counts.getD (counts.length - 1) 0 + 1) % 256)) rest with
        | none => rw [hT] at h; cases h
        | some q => obtain ⟨t, r⟩ := q; rw [hT] at h; cases h
      · intro hc; omega

/-- C8 witness: the equivalence evaluated on a two-level header whose
counts sum to 256, which does overflow the byte alphabet. -/
theorem parse_header_bad_symbol_table_witness :
    (parse_header (2 :: [1, 255] ++ [97]) = .error .badSymbolTable ↔
      256 < ([1, 255] : List Nat).sum + 1) :=
  parse_header_bad_symbol_table 2 [1, 255] [97] (by decide)

/-! ## Claim C9 -/

/-- C9: the default attribute bitmask is the timestamps flag alone
(`Archive::extract` and `Archive::extract_file` restore timestamps only by
default), and `set_file_attributes` modifies only the metadata whose flag
is set: with the timestamps flag clear the times are untouched, with the
owners flag clear the uid/gid are untouched, with the permissions flag
clear the permission bits are untouched, and with `ATTRIBUTE_NONE` the
metadata is unchanged altogether. -/
theorem attribute_default_and_frame :
    ATTRIBUTE_DEFAULT = ATTRIBUTE_TIMESTAMPS ∧
    (∀ r : RecordM, extract_file r = extract_file_with_attr r ATTRIBUTE_TIMESTAMPS) ∧
    (∀ rs : List RecordM,
      extract rs = extract_when_with_attr rs ATTRIBUTE_TIMESTAMPS (fun _ => true)) ∧
    (∀ (meta : FileMeta) (record : RecordT) (attributes : Nat),
      (attributes &&& ATTRIBUTE_TIMESTAMPS = 0 →
        (set_file_attributes meta record attributes).accessTime = meta.accessTime ∧
        (set_file_attributes meta record attributes).modifyTime = meta.modifyTime) ∧
      (attributes &&& ATTRIBUTE_OWNERS = 0 →
        (set_file_attributes meta record attributes).owner_uid = meta.owner_uid ∧
        (set_file_attributes meta record attributes).owner_gid = meta.owner_gid) ∧
      (attributes &&& ATTRIBUTE_PERMISSIONS = 0 →
        (set_file_attributes meta record attributes).permBits = meta.permBits)) ∧
    (∀ (meta : FileMeta) (record : RecordT),
      set_file_attributes meta record ATTRIBUTE_NONE = meta) := by
  refine ⟨rfl, fun r => rfl, fun rs => rfl, ?_, ?_⟩
  · intro meta record attributes
    refine ⟨fun h => ?_, fun h => ?_, fun h => ?_⟩
    · simp only [set_file_attributes]
      rw [if_neg (show ¬(0 < attributes &&& ATTRIBUTE_TIMESTAMPS) by omega)]
      constructor <;> (split <;> split <;> rfl)
    · simp only [set_file_attributes]
      rw [if_neg (show ¬(0 < attributes &&& ATTRIBUTE_OWNERS) by omega)]
      constructor <;> (split <;> split <;> rfl)
    · simp only [set_file_attributes]
      rw [if_neg (show ¬(0 < attributes &&& ATTRIBUTE_PERMISSIONS) by omega)]
      split <;> split <;> rfl
  · intro meta record
    simp [set_file_attributes, ATTRIBUTE_NONE, ATTRIBUTE_TIMESTAMPS, ATTRIBUTE_OWNERS,
      ATTRIBUTE_PERMISSIONS]

/-- C9 witness: the frame statement evaluated at a concrete metadata state,
record and mask (owners flag only). -/
theorem attribute_default_and_frame_witness :
    (set_file_attributes ⟨1, 2, 3, 4, 5⟩ ⟨[], 0, 0, 6, 7, 8, 9, 10, 0, 0⟩ 2).accessTime = 4 ∧
    (set_file_attributes ⟨1, 2, 3, 4, 5⟩ ⟨[], 0, 0, 6, 7, 8, 9, 10, 0, 0⟩ 2).permBits = 1 := by
  have h := attribute_default_and_frame.2.2.2.1 ⟨1, 2, 3, 4, 5⟩ ⟨[], 0, 0, 6, 7, 8, 9, 10, 0, 0⟩ 2
  exact ⟨(h.1 (by decide)).1, h.2.2 (by decide)⟩

/-! ## Claim C2 -/

/-- C2 counterexample: a record whose attribute-restoration step fails (all
other steps succeed) makes `extract_file_with_attr` return `IoError` — not
`ModeError` — and `extract_when_with_attr` then aborts the whole
extraction, so the otherwise-valid second record is never extracted,
contrary to the claim that attribute-restoration failures are logged and
skipped. -/
theorem extract_attr_failure_aborts_cex :
    extract_file_with_attr ⟨some .regular, true, none, none, some .other⟩ ATTRIBUTE_DEFAULT
      = .error (.ioError .other) ∧
    extract_when_with_attr
      [⟨some .regular, true, none, none, some .other⟩,
       ⟨some .regular, true, none, none, none⟩] ATTRIBUTE_DEFAULT (fun _ => true)
      = .error (.ioError .other) := by
  decide

/-- C2 amended: during filtered extraction the errors skipped (logged and
extraction continues) are exactly `EmptyFilename`, `ModeError` and
`MissingParentDir`, and every other per-record error aborts the whole
extraction and is returned; but `extract_file_with_attr` itself never
produces `EmptyFilename` or `ModeError` (the library constructs neither),
and a failure of the attribute-restoration step surfaces as `IoError`,
which therefore aborts rather than being skipped.  Only a missing parent
directory is actually skippable in this code path. -/
theorem extract_when_skip_policy (r : RecordM) (attributes : Nat) (rs : List RecordM)
    (when : RecordM → Bool) :
    (∀ e, extract_file_with_attr r attributes = .error e →
      e ≠ .emptyFilename ∧ e ≠ .modeError) ∧
    (r.ftype = some .regular → r.hasParent = true → r.createDirErr = none →
      r.contentErr = none → ∀ k, r.attrErr = some k →
      extract_file_with_attr r attributes = .error (.ioError k)) ∧
    (when r = true → extract_file_with_attr r attributes = .error .missingParentDir →
      extract_when_with_attr (r :: rs) attributes when
        = extract_when_with_attr rs attributes when) ∧
    (when r = true → extract_file_with_attr r attributes = .ok () →
      extract_when_with_attr (r :: rs) attributes when
        = extract_when_with_attr rs attributes when) ∧
    (when r = true → ∀ e, extract_file_with_attr r attributes = .error e →
      e ≠ .emptyFilename → e ≠ .modeError → e ≠ .missingParentDir →
      extract_when_with_attr (r :: rs) attributes when = .error e) := by
  refine ⟨?_, ?_, ?_, ?_, ?_⟩
  · intro e he
    obtain ⟨ft, hp, cd, ce, ae⟩ := r
    rcases ft with _ | f
    all_goals try cases f
    all_goals cases hp
    all_goals rcases cd with _ | ck
    all_goals rcases ce with _ | ce
    all_goals try cases ce
    all_goals rcases ae with _ | ak
    all_goals simp [extract_file_with_attr] at he
    all_goals subst he
    all_goals exact ⟨by simp, by simp⟩
  · intro h1 h2 h3 h4 k h5
    obtain ⟨ft, hp, cd, ce, ae⟩ := r
    simp_all [extract_file_with_attr]
  · intro hw he
    simp [extract_when_with_attr, hw, he]
  · intro hw he
    simp [extract_when_with_attr, hw, he]
  · intro hw e he hne1 hne2 hne3
    cases e <;> simp_all [extract_when_with_attr]

/-- C2 witness: the amended policy applied to a one-record list whose
record lacks a resolvable parent directory — the record is skipped and the
loop continues with the (empty) remainder. -/
theorem extract_when_skip_policy_witness :
    extract_when_with_attr [⟨some .regular, false, none, none, none⟩] 4 (fun _ => true)
      = extract_when_with_attr [] 4 (fun _ => true) :=
  (extract_when_skip_policy ⟨some .regular, false, none, none, none⟩ 4 [] (fun _ => true)).2.2.1
    rfl (by decide)

/-! ## Claim C7 -/

/-- C7: for a record whose mode marks a regular file, the content reader is
the byte window of exactly `compressed_size` bytes starting at the
recorded payload offset, wrapped in the Huffman decoder if and only if the
record magic equals `0xEA6C` (and the raw variant never wraps); for any
other file type the operation fails with `UnsupportedFileType`. -/
theorem make_record_reader_spec (s : ByteStream) (rec : RecordT) :
    (file_type rec.mode ≠ some .regular →
      make_record_reader s rec = .error .unsupportedFileType ∧
      make_record_reader_raw s rec true = .error .unsupportedFileType) ∧
    (file_type rec.mode = some .regular →
      (rec.magic ≠ HUFFMAN_MAGIC →
        make_record_reader s rec =
          .ok (.raw ((s.data.drop rec.file_position).take rec.compressed_size))) ∧
      (rec.magic = HUFFMAN_MAGIC →
        make_record_reader s rec =
          (parse_header ((s.data.drop rec.file_position).take rec.compressed_size)).map
            RecordReader.huffman ∧
        make_record_reader_raw s rec true =
          .ok (.raw ((s.data.drop rec.file_position).take rec.compressed_size)))) := by
  constructor
  · intro hne
    unfold make_record_reader make_record_reader_raw
    cases hft : file_type rec.mode with
    | none => simp
    | some t => cases t <;> simp_all
  · intro hft
    unfold make_record_reader make_record_reader_raw
    rw [hft]
    dsimp only
    constructor
    · intro hm
      rw [if_neg (fun hc => hm hc.1)]
    · intro hm
      constructor
      · rw [if_pos ⟨hm, rfl⟩]
        cases hph : parse_header ((s.data.drop rec.file_position).take rec.compressed_size) <;>
          simp [Except.map]
      · rw [if_neg (fun hc => by cases hc.2)]

/-- C7 witness: the reader for a concrete raw regular-file record is the
two-byte window at its payload offset. -/
theorem make_record_reader_spec_witness :
    make_record_reader ⟨[9, 9, 5, 6, 7], none, 0⟩ ⟨[], 2, 2, 33188, 0, 0, 0, 0, 2, 0xEA6B⟩
      = .ok (.raw [5, 6]) := by
  have h := ((make_record_reader_spec ⟨[9, 9, 5, 6, 7], none, 0⟩
    ⟨[], 2, 2, 33188, 0, 0, 0, 0, 2, 0xEA6B⟩).2 (by decide)).1 (by decide)
  exact h.trans (by decide)

/-! ## Claim C5 -/

theorem readExactS_eof (k : Nat) (s : ByteStream) (hf : hitsFault s k = false)
    (hlen : s.data.length < s.pos + k) :
    readExactS k s = (.error (.ioError .unexpectedEof), { s with pos := s.data.length }) := by
  unfold readExactS
  rw [if_neg (by simp [hf]), if_neg (by omega)]

theorem readExactS_read (k : Nat) (s : ByteStream) (hf : hitsFault s k = false)
    (hlen : s.pos + k ≤ s.data.length) :
    readExactS k s = (.ok ((s.data.drop s.pos).take k), { s with pos := s.pos + k }) := by
  unfold readExactS
  rw [if_neg (by simp [hf]), if_pos hlen]

theorem slice_getD (l : List Nat) (p k i : Nat) (hik : i < k) :
    ((l.drop p).take k).getD i 0 = l.getD (p + i) 0 := by
  rw [List.getD_eq_getElem?_getD, List.getD_eq_getElem?_getD]
  simp only [List.getElem?_take, List.getElem?_drop]
  rw [if_pos hik]

/-- C5: the per-record dispatch of the archive scan.  When reading a new
64-byte record header hits the end of the data (with no underlying fault),
the scan ends successfully with the records collected so far.  When the
header is read but its sentinel byte (offset 1) is not `0x0B`, or its
magic (bytes 2-3, little endian) is none of `0xEA6B`/`0xEA6C`/`0xEA6D`,
the record is absorbed and the scan continues after the 64 consumed header
bytes.  A non-EOF I/O error from `read_next_record` aborts the whole parse
with that error, and a parsed record is appended and the scan continues. -/
theorem read_records_policy (fuel : Nat) (s : ByteStream) (acc : List RecordT) :
    (hitsFault s 64 = false → s.data.length < s.pos + 64 →
      read_records_go (fuel + 1) s acc = .ok acc) ∧
    (hitsFault s 64 = false → s.pos + 64 ≤ s.data.length →
      s.data.getD (s.pos + 1) 0 ≠ 0x0b →
      read_records_go (fuel + 1) s acc =
        read_records_go fuel { s with pos := s.pos + 64 } acc) ∧
    (hitsFault s 64 = false → s.pos + 64 ≤ s.data.length →
      s.data.getD (s.pos + 1) 0 = 0x0b →
      ¬(s.data.getD (s.pos + 2) 0 + 256 * s.data.getD (s.pos + 3) 0 = 0xEA6B ∨
        s.data.getD (s.pos + 2) 0 + 256 * s.data.getD (s.pos + 3) 0 = 0xEA6C ∨
        s.data.getD (s.pos + 2) 0 + 256 * s.data.getD (s.pos + 3) 0 = 0xEA6D) →
      read_records_go (fuel + 1) s acc =
        read_records_go fuel { s with pos := s.pos + 64 } acc) ∧
    (∀ s1, read_next_record s = (.error (.ioError .other), s1) →
      read_records_go (fuel + 1) s acc = .error (.ioError .other)) ∧
    (∀ rec s1, read_next_record s = (.ok rec, s1) →
      read_records_go (fuel + 1) s acc = read_records_go fuel s1 (acc ++ [rec])) := by
  refine ⟨?_, ?_, ?_, ?_, ?_⟩
  · intro hf hlen
    have hm : read_next_record s =
        (.error (.ioError .unexpectedEof), { s with pos := s.data.length }) := by
      unfold read_next_record read_record_meta
      rw [readExactS_eof 64 s hf hlen]
    simp only [read_records_go]
    rw [hm]
  · intro hf hlen hs
    have hm : read_next_record s = (.error .invalidRecord, { s with pos := s.pos + 64 }) := by
      unfold read_next_record read_record_meta
      rw [readExactS_read 64 s hf hlen]
      dsimp only
      rw [if_pos (by rw [slice_getD s.data s.pos 64 1 (by omega)]; exact hs)]
    simp only [read_records_go]
    rw [hm]
  · intro hf hlen hs hmg
    have hm : read_next_record s =
        (.error (.invalidRecordMagic
          (s.data.getD (s.pos + 2) 0 + 256 * s.data.getD (s.pos + 3) 0)),
         { s with pos := s.pos + 64 }) := by
      unfold read_next_record read_record_meta
      rw [readExactS_read 64 s hf hlen]
      dsimp only
      rw [if_neg (by rw [slice_getD s.data s.pos 64 1 (by omega)]; exact fun hc => hc hs),
        slice_getD s.data s.pos 64 2 (by omega), slice_getD s.data s.pos 64 3 (by omega),
        if_neg hmg]
    simp only [read_records_go]
    rw [hm]
  · intro s1 h
    simp only [read_records_go]
    rw [h]
  · intro rec s1 h
    simp only [read_records_go]
    rw [h]

/-- C5 witness: scanning an empty stream ends successfully with no
records. -/
theorem read_records_policy_witness :
    read_records_go 1 ⟨[], none, 0⟩ [] = .ok [] :=
  (read_records_policy 0 ⟨[], none, 0⟩ []).1 rfl (by decide)

/-! ## Claim C10 -/

theorem splitZero_of_not_mem (l : List Nat) (h : 0 ∉ l) : splitZero l = (false, l) := by
  induction l with
  | nil => rfl
  | cons b t ih =>
    simp only [List.mem_cons, not_or] at h
    unfold splitZero
    rw [if_neg (fun hb => h.1 hb.symm), ih h.2]

theorem splitZero_append (l1 l2 : List Nat) (h : 0 ∉ l1) :
    splitZero (l1 ++ 0 :: l2) = (true, l1) := by
  induction l1 with
  | nil => rfl
  | cons b t ih =>
    simp only [List.mem_cons, not_or] at h
    rw [List.cons_append]
    unfold splitZero
    rw [if_neg (fun hb => h.1 hb.symm), ih h.2]

theorem first_segment_cons (b : Nat) (t : List Nat) :
    first_segment (b :: t) =
      if b = 10 ∨ b = 9 ∨ b = 11 then [] else b :: first_segment t := by
  have hfs : findSep (b :: t)
      = if b = 10 ∨ b = 9 ∨ b = 11 then some 0 else (findSep t).map (· + 1) := rfl
  unfold first_segment
  rw [hfs]
  by_cases hb : b = 10 ∨ b = 9 ∨ b = 11
  · rw [if_pos hb, if_pos hb]
    rfl
  · rw [if_neg hb, if_neg hb]
    cases hf : findSep t with
    | none => rfl
    | some i => rfl

theorem first_segment_eq_takeWhile (l : List Nat) :
    first_segment l = l.takeWhile (fun b => !(b == 10 || b == 9 || b == 11)) := by
  induction l with
  | nil => rfl
  | cons b t ih =>
    rw [first_segment_cons, List.takeWhile_cons]
    by_cases hb : b = 10 ∨ b = 9 ∨ b = 11
    · rw [if_pos hb]
      have hpred : (b == 10 || b == 9 || b == 11) = true := by
        rcases hb with h | h | h <;> simp [h]
      rw [hpred]
      rfl
    · rw [if_neg hb]
      push_neg at hb
      have hpred : (b == 10 || b == 9 || b == 11) = false := by
        simp only [Bool.or_eq_false_iff, beq_eq_false_iff_ne]
        exact ⟨⟨hb.1, hb.2.1⟩, hb.2.2⟩
      rw [hpred, ih]
      rfl

theorem readSomeS_of_no_fault (k : Nat) (s : ByteStream) (hf : s.failPos = none) :
    readSomeS k s = (.ok ((s.data.drop s.pos).take (min k (s.data.length - s.pos))),
      { s with pos := s.pos + min k (s.data.length - s.pos) }) := by
  simp only [readSomeS, hitsFault, hf]
  rfl

/-- The chunk loop delivers exactly the bytes before the NUL terminator:
for a stream whose remaining data starts with NUL-free name bytes `nb`
followed by a NUL, the collected string is `acc ++ nb`, regardless of
chunking and of the stale tail of the 8-byte scan buffer. -/
theorem readAlignedLoop_collect (fuel : Nat) :
    ∀ (nb rest : List Nat) (s : ByteStream) (buf acc : List Nat),
      s.failPos = none → buf.length = 8 →
      s.data.drop s.pos = nb ++ 0 :: rest → 0 ∉ nb → nb.length < fuel →
      (readAlignedLoop fuel s buf acc).1 = .ok (acc ++ nb) := by
  induction fuel with
  | zero => intro nb rest s buf acc _ _ _ _ hfu; omega
  | succ fuel ih =>
    intro nb rest s buf acc hf hbuf hd hz hfu
    have hlen : s.data.length - s.pos = nb.length + (rest.length + 1) := by
      have hl := congrArg List.length hd
      simp at hl
      omega
    unfold readAlignedLoop
    rw [readSomeS_of_no_fault 8 s hf]
    dsimp only
    have hchunklen :
        ((s.data.drop s.pos).take (min 8 (s.data.length - s.pos))).length
          = min 8 (s.data.length - s.pos) := by
      rw [List.length_take, List.length_drop]
      omega
    rw [if_neg (by rw [hchunklen]; omega)]
    rw [hchunklen]
    by_cases h8 : 8 ≤ nb.length
    · have hre : min 8 (s.data.length - s.pos) = 8 := by omega
      rw [hre]
      have hchunk : (s.data.drop s.pos).take 8 = nb.take 8 := by
        rw [hd, List.take_append_eq_append_take,
          show (8 - nb.length) = 0 by omega]
        simp
      rw [hchunk, List.drop_eq_nil_of_le (by omega), List.append_nil,
        splitZero_of_not_mem _ (fun hm => hz (List.mem_of_mem_take hm))]
      dsimp only
      rw [show acc ++ nb = (acc ++ nb.take 8) ++ nb.drop 8 by
        rw [List.append_assoc, List.take_append_drop]]
      apply ih (nb.drop 8) rest { s with pos := s.pos + 8 } (nb.take 8) (acc ++ nb.take 8) hf
      · simp [List.length_take]
        omega
      · show s.data.drop (s.pos + 8) = nb.drop 8 ++ 0 :: rest
        rw [← List.drop_drop, hd, List.drop_append_eq_append_drop,
          show (8 - nb.length) = 0 by omega]
        rfl
      · exact fun hm => hz (List.mem_of_mem_drop hm)
      · simp [List.length_drop]
        omega
    · have hrnb : nb.length < min 8 (s.data.length - s.pos) := by omega
      obtain ⟨d, hdnz⟩ : ∃ d, min 8 (s.data.length - s.pos) - nb.length = d + 1 :=
        ⟨min 8 (s.data.length - s.pos) - nb.length - 1, by omega⟩
      have hchunk : (s.data.drop s.pos).take (min 8 (s.data.length - s.pos))
          = nb ++ 0 :: rest.take d := by
        rw [hd, List.take_append_eq_append_take,
          List.take_of_length_le (Nat.le_of_lt hrnb), hdnz, List.take_succ_cons]
      rw [hchunk,
        show (nb ++ 0 :: rest.take d) ++ buf.drop (min 8 (s.data.length - s.pos))
            = nb ++ 0 :: (rest.take d ++ buf.drop (min 8 (s.data.length - s.pos))) by
          simp,
        splitZero_append _ _ hz]

/-- C10: for every stored filename — NUL-free name bytes `nb` followed by
the NUL terminator — the string produced by `read_aligned_string` is `nb`
truncated strictly before the first newline (10), horizontal tab (9) or
vertical tab (11) byte: exactly the longest prefix free of those
separators. -/
theorem read_aligned_string_truncates (nb rest : List Nat) (s : ByteStream)
    (hf : s.failPos = none) (hd : s.data.drop s.pos = nb ++ 0 :: rest) (hz : 0 ∉ nb) :
    (read_aligned_string s).1 =
      .ok (nb.takeWhile (fun b => !(b == 10 || b == 9 || b == 11))) := by
  unfold read_aligned_string
  have hfu : nb.length < s.data.length - s.pos + 1 := by
    have hl := congrArg List.length hd
    simp at hl
    omega
  have hcol := readAlignedLoop_collect (s.data.length - s.pos + 1) nb rest s
    (List.replicate 8 0) [] hf (by simp) hd hz hfu
  dsimp only
  rw [hcol]
  show Except.ok (first_segment ([] ++ nb)) = _
  rw [List.nil_append, first_segment_eq_takeWhile]

/-- C10 witness: a stored name containing a horizontal tab is truncated to
the bytes before it. -/
theorem read_aligned_string_truncates_witness :
    (read_aligned_string ⟨[97, 9, 98, 0, 5], none, 0⟩).1 =
      .ok (([97, 9, 98] : List Nat).takeWhile (fun b => !(b == 10 || b == 9 || b == 11))) :=
  read_aligned_string_truncates [97, 9, 98] [5] ⟨[97, 9, 98, 0, 5], none, 0⟩ rfl rfl
    (by decide)

/-! ## Claim C6

The offset bookkeeping of `read_next_record`, plus the fact that the
payload region is only seeked over, never read: overwriting any byte at or
after the payload offset does not change the parsed record. -/

theorem slice_set (l : List Nat) (p k i v : Nat) (h : p + k ≤ i) :
    ((l.set i v).drop p).take k = (l.drop p).take k := by
  apply List.ext_getElem?
  intro n
  simp only [List.getElem?_take, List.getElem?_drop]
  split
  · rw [List.getElem?_set_ne (by omega)]
  · rfl

theorem hitsFault_data (s : ByteStream) (d : List Nat) (k : Nat) :
    hitsFault { s with data := d } k = hitsFault s k := rfl

theorem readExactS_ok_inv {k : Nat} {s : ByteStream} {b : List Nat} {s1 : ByteStream}
    (h : readExactS k s = (.ok b, s1)) :
    hitsFault s k = false ∧ s.pos + k ≤ s.data.length ∧
    b = (s.data.drop s.pos).take k ∧ s1 = { s with pos := s.pos + k } := by
  unfold readExactS at h
  split at h
  · simp at h
  · next hfaul =>
    split at h
    · next hlen =>
      simp only [Prod.mk.injEq, Except.ok.injEq] at h
      exact ⟨by simpa using hfaul, hlen, h.1.symm, h.2.symm⟩
    · simp at h

theorem readExactS_set (k : Nat) (s : ByteStream) (b : List Nat) (s1 : ByteStream)
    (i v : Nat) (h : readExactS k s = (.ok b, s1)) (hi : s.pos + k ≤ i) :
    readExactS k { s with data := s.data.set i v }
      = (.ok b, { s1 with data := s1.data.set i v }) := by
  obtain ⟨hf, hlen, hb, hs1⟩ := readExactS_ok_inv h
  unfold readExactS
  rw [hitsFault_data]
  rw [if_neg (by simp [hf])]
  rw [List.length_set, if_pos (by exact hlen)]
  rw [show ({ s with data := s.data.set i v } : ByteStream).pos = s.pos from rfl,
    show ({ s with data := s.data.set i v } : ByteStream).data = s.data.set i v from rfl,
    slice_set s.data s.pos k i v hi, ← hb, hs1]

theorem readSomeS_inv {k : Nat} {s : ByteStream} {res : Except Err (List Nat)}
    {s1 : ByteStream} (h : readSomeS k s = (res, s1)) :
    s1.data = s.data ∧ s1.failPos = s.failPos ∧ s.pos ≤ s1.pos := by
  unfold readSomeS at h
  split at h
  · simp only [Prod.mk.injEq] at h
    rw [← h.2]
    exact ⟨rfl, rfl, Nat.le_refl _⟩
  · simp only [Prod.mk.injEq] at h
    rw [← h.2]
    exact ⟨rfl, rfl, Nat.le_add_right _ _⟩

theorem readSomeS_set (k : Nat) (s : ByteStream) (res : Except Err (List Nat))
    (s1 : ByteStream) (i v : Nat) (h : readSomeS k s = (res, s1)) (hi : s1.pos ≤ i) :
    readSomeS k { s with data := s.data.set i v }
      = (res, { s1 with data := s1.data.set i v }) := by
  unfold readSomeS at h ⊢
  dsimp only
  rw [List.length_set, hitsFault_data s (s.data.set i v)]
  split at h
  · next hfa =>
    rw [if_pos hfa]
    simp only [Prod.mk.injEq] at h
    rw [← h.1, ← h.2]
  · next hfa =>
    rw [if_neg hfa]
    simp only [Prod.mk.injEq] at h
    have hpos : s1.pos = s.pos + min k (s.data.length - s.pos) := by rw [← h.2]
    rw [slice_set s.data s.pos (min k (s.data.length - s.pos)) i v (by omega),
      ← h.1, ← h.2]

theorem readAlignedLoop_inv (fuel : Nat) :
    ∀ (s : ByteStream) (buf acc : List Nat) (res : Except Err (List Nat)) (s1 : ByteStream),
      readAlignedLoop fuel s buf acc = (res, s1) →
      s1.data = s.data ∧ s1.failPos = s.failPos ∧ s.pos ≤ s1.pos := by
  induction fuel with
  | zero =>
    intro s buf acc res s1 h
    unfold readAlignedLoop at h
    simp only [Prod.mk.injEq] at h
    rw [← h.2]
    exact ⟨rfl, rfl, Nat.le_refl _⟩
  | succ fuel ih =>
    intro s buf acc res s1 h
    unfold readAlignedLoop at h
    rcases hr : readSomeS 8 s with ⟨r1, st⟩
    rw [hr] at h
    obtain ⟨hdata, hfp, hpos⟩ := readSomeS_inv hr
    cases r1 with
    | error e =>
      dsimp only at h
      simp only [Prod.mk.injEq] at h
      rw [← h.2]
      exact ⟨hdata, hfp, hpos⟩
    | ok chunk =>
      dsimp only at h
      split at h
      · simp only [Prod.mk.injEq] at h
        rw [← h.2]
        exact ⟨hdata, hfp, hpos⟩
      · rcases hsz : splitZero (chunk ++ buf.drop chunk.length) with ⟨found, pre⟩
        rw [hsz] at h
        cases found with
        | true =>
          dsimp only at h
          simp only [Prod.mk.injEq] at h
          rw [← h.2]
          exact ⟨hdata, hfp, hpos⟩
        | false =>
          dsimp only at h
          obtain ⟨hd2, hf2, hp2⟩ := ih st _ _ _ _ h
          exact ⟨hd2.trans hdata, hf2.trans hfp, Nat.le_trans hpos hp2⟩

theorem readAlignedLoop_set (fuel : Nat) :
    ∀ (s : ByteStream) (buf acc : List Nat) (res : Except Err (List Nat)) (s1 : ByteStream)
      (i v : Nat),
      readAlignedLoop fuel s buf acc = (res, s1) → s1.pos ≤ i →
      readAlignedLoop fuel { s with data := s.data.set i v } buf acc
        = (res, { s1 with data := s1.data.set i v }) := by
  induction fuel with
  | zero =>
    intro s buf acc res s1 i v h hi
    unfold readAlignedLoop at h ⊢
    simp only [Prod.mk.injEq] at h
    rw [← h.1, ← h.2]
  | succ fuel ih =>
    intro s buf acc res s1 i v h hi
    unfold readAlignedLoop at h ⊢
    rcases hr : readSomeS 8 s with ⟨r1, st⟩
    rw [hr] at h
    obtain ⟨hdata, hfp, hpos⟩ := readSomeS_inv hr
    cases r1 with
    | error e =>
      dsimp only at h
      simp only [Prod.mk.injEq] at h
      have hst : s1 = st := h.2.symm
      rw [readSomeS_set 8 s (.error e) st i v hr (by rw [← hst]; exact hi)]
      dsimp only
      rw [← h.1, hst]
    | ok chunk =>
      dsimp only at h
      split at h
      · next hzero =>
        simp only [Prod.mk.injEq] at h
        have hst : s1 = st := h.2.symm
        rw [readSomeS_set 8 s (.ok chunk) st i v hr (by rw [← hst]; exact hi)]
        dsimp only
        rw [if_pos hzero, ← h.1, hst]
      · next hzero =>
        rcases hsz : splitZero (chunk ++ buf.drop chunk.length) with ⟨found, pre⟩
        rw [hsz] at h
        cases found with
        | true =>
          dsimp only at h
          simp only [Prod.mk.injEq] at h
          have hst : s1 = st := h.2.symm
          rw [readSomeS_set 8 s (.ok chunk) st i v hr (by rw [← hst]; exact hi)]
          dsimp only
          rw [if_neg hzero, hsz]
          dsimp only
          rw [← h.1, hst]
        | false =>
          dsimp only at h
          obtain ⟨hd2, hf2, hp2⟩ := readAlignedLoop_inv fuel st _ _ _ _ h
          rw [readSomeS_set 8 s (.ok chunk) st i v hr (by omega)]
          dsimp only
          rw [if_neg hzero, hsz]
          dsimp only
          exact ih st _ _ _ _ i v h hi

theorem read_aligned_string_inv {s : ByteStream} {res : Except Err (List Nat)}
    {s1 : ByteStream} (h : read_aligned_string s = (res, s1)) :
    s1.data = s.data ∧ s1.failPos = s.failPos ∧ s.pos ≤ s1.pos := by
  unfold read_aligned_string at h
  rcases hl : readAlignedLoop (s.data.length - s.pos + 1) s (List.replicate 8 0) []
    with ⟨r1, st⟩
  rw [hl] at h
  simp only [Prod.mk.injEq] at h
  rw [← h.2]
  exact readAlignedLoop_inv _ _ _ _ _ _ hl

theorem read_aligned_string_set {s : ByteStream} {res : Except Err (List Nat)}
    {s1 : ByteStream} (i v : Nat) (h : read_aligned_string s = (res, s1))
    (hi : s1.pos ≤ i) :
    read_aligned_string { s with data := s.data.set i v }
      = (res, { s1 with data := s1.data.set i v }) := by
  unfold read_aligned_string at h ⊢
  rcases hl : readAlignedLoop (s.data.length - s.pos + 1) s (List.replicate 8 0) []
    with ⟨r1, st⟩
  rw [hl] at h
  simp only [Prod.mk.injEq] at h
  dsimp only
  rw [List.length_set]
  rw [readAlignedLoop_set (s.data.length - s.pos + 1) s (List.replicate 8 0) [] r1 st i v hl
    (by rw [h.2]; exact hi)]
  dsimp only
  rw [h.1, h.2]

theorem read_record_meta_ok_inv {s : ByteStream} {hdr name : List Nat} {s3 : ByteStream}
    (h : read_record_meta s = (.ok (hdr, name), s3)) :
    hdr = (s.data.drop s.pos).take 64 ∧ s.pos + 64 ≤ s.data.length ∧
    s3.data = s.data ∧ s3.failPos = s.failPos ∧ s.pos + 64 ≤ s3.pos ∧
    (∀ i v, s3.pos ≤ i →
      read_record_meta { s with data := s.data.set i v }
        = (.ok (hdr, name), { s3 with data := s3.data.set i v })) := by
  unfold read_record_meta at h
  rcases h64 : readExactS 64 s with ⟨r1, st1⟩
  rw [h64] at h
  cases r1 with
  | error e => dsimp only at h; simp at h
  | ok hdr0 =>
    dsimp only at h
    obtain ⟨hf64, hlen64, hhdr0, hst1⟩ := readExactS_ok_inv h64
    split at h
    · simp at h
    · next hsent =>
      split at h
      · next hmag =>
        rcases ha : read_aligned_string st1 with ⟨ra, st2⟩
        rw [ha] at h
        cases ra with
        | error e => dsimp only at h; simp at h
        | ok name0 =>
          dsimp only at h
          rcases ht : readExactS 40 st2 with ⟨rt, st3x⟩
          rw [ht] at h
          cases rt with
          | error e => dsimp only at h; simp at h
          | ok tb =>
            dsimp only at h
            simp only [Prod.mk.injEq, Except.ok.injEq] at h
            obtain ⟨⟨hh, hn⟩, hs3⟩ := h
            obtain ⟨ha_data, ha_fp, ha_pos⟩ := read_aligned_string_inv ha
            obtain ⟨hft, hlt, htb, hst3⟩ := readExactS_ok_inv ht
            have hst1pos : st1.pos = s.pos + 64 := by rw [hst1]
            have hst1data : st1.data = s.data := by rw [hst1]
            have hst1fp : st1.failPos = s.failPos := by rw [hst1]
            have hs3pos : s3.pos = st2.pos + 40 := by rw [← hs3, hst3]
            have hs3data : s3.data = s.data := by
              rw [← hs3, hst3]
              show st2.data = s.data
              rw [ha_data, hst1data]
            have hs3fp : s3.failPos = s.failPos := by
              rw [← hs3, hst3]
              show st2.failPos = s.failPos
              rw [ha_fp, hst1fp]
            refine ⟨by rw [← hh, hhdr0], hlen64, hs3data, hs3fp, by omega, ?_⟩
            intro i v hi
            unfold read_record_meta
            rw [readExactS_set 64 s hdr0 st1 i v h64 (by omega)]
            dsimp only
            rw [if_neg hsent, if_pos hmag]
            rw [read_aligned_string_set i v ha (by omega)]
            dsimp only
            rw [readExactS_set 40 st2 tb st3x i v ht (by omega)]
            dsimp only
            rw [hh, hn, hs3]
      · simp at h

theorem getD_lt_256 (l : List Nat) (j : Nat) (h : ∀ b ∈ l, b < 256) : l.getD j 0 < 256 := by
  rw [List.getD_eq_getElem?_getD]
  cases hj : l[j]? with
  | none => simp
  | some x => simpa using h x (List.getElem?_mem hj)

theorem le32_lt (l : List Nat) (i : Nat) (h : ∀ b ∈ l, b < 256) :
    le32 l i < 4294967296 := by
  unfold le32
  have h0 := getD_lt_256 l i h
  have h1 := getD_lt_256 l (i + 1) h
  have h2 := getD_lt_256 l (i + 2) h
  have h3 := getD_lt_256 l (i + 3) h
  omega

/-- C6: for every successfully parsed record, the recorded payload offset
is the stream position immediately after the `RecordTrailer` (truncated to
`u32`, the identity for positions below `2^32`); the scan then advances by
exactly `compressed_size` when the declared `size` is non-zero, plus the
padding that rounds `compressed_size` up to the next multiple of 8 — the
wrapping `u32` computation always equals `(8 - compressed_size % 8) % 8`,
a quantity below 8 (never negative) and zero whenever `compressed_size` is
a multiple of 8 (including 0).  Moreover no payload byte is ever read:
overwriting any byte at or after the payload offset leaves the parsed
record unchanged. -/
theorem read_next_record_offsets (s : ByteStream) (hdr name : List Nat) (s3 : ByteStream)
    (hb : ∀ b ∈ s.data, b < 256)
    (h : read_record_meta s = (.ok (hdr, name), s3)) :
    ∃ rec s5, read_next_record s = (.ok rec, s5) ∧
      rec.file_position = s3.pos % 4294967296 ∧
      (s3.pos < 4294967296 → rec.file_position = s3.pos) ∧
      s5.pos = s3.pos + (if 0 < rec.size then rec.compressed_size else 0)
        + (8 - rec.compressed_size % 8) % 8 ∧
      (8 - rec.compressed_size % 8) % 8 < 8 ∧
      (rec.compressed_size % 8 = 0 → (8 - rec.compressed_size % 8) % 8 = 0) ∧
      (∀ i v, s3.pos ≤ i →
        read_next_record { s with data := s.data.set i v }
          = (.ok rec, { s5 with data := s5.data.set i v })) := by
  obtain ⟨hhdr, hlen64, hdat, hfp, hge, hset⟩ := read_record_meta_ok_inv h
  have hbytes : ∀ b ∈ hdr, b < 256 := by
    intro b hbmem
    apply hb
    rw [hhdr] at hbmem
    exact List.mem_of_mem_drop (List.mem_of_mem_take hbmem)
  have hcs : le32 hdr 56 < 4294967296 := le32_lt hdr 56 hbytes
  have hpad : ((((le32 hdr 56 + 7) % 4294967296) / 8) * 8 + 4294967296 - le32 hdr 56)
      % 4294967296 = (8 - le32 hdr 56 % 8) % 8 := by omega
  unfold read_next_record
  rw [h]
  dsimp only
  refine ⟨_, _, rfl, rfl, fun hlt => Nat.mod_eq_of_lt hlt, ?_, by omega, fun _ => by omega, ?_⟩
  · rw [hpad]
    split <;> rfl
  · intro i v hi
    rw [hset i v hi]
    dsimp only
    by_cases hc : 0 < le32 hdr 24
    · simp only [if_pos hc]
    · simp only [if_neg hc]

/-- The bytes of a minimal single-record archive fragment: a 64-byte header
with sentinel `0x0B`, magic `0xEA6B`, `size = 1`, `compressed_size = 3`;
the name chunk `"ab\0"` padded to 8 bytes; a 40-byte trailer; 3 payload
bytes and 5 padding bytes. -/
def c6data : List Nat :=
  [15, 11, 107, 234, 0, 0, 0, 0, 0, 0, 0, 0, 0, 0, 0, 0, 0, 0, 0, 0, 0, 0, 0, 0,
   1, 0, 0, 0, 0, 0, 0, 0, 0, 0, 0, 0, 0, 0, 0, 0, 0, 0, 0, 0, 0, 0, 0, 0,
   0, 0, 0, 0, 0, 0, 0, 0, 3, 0, 0, 0, 0, 0, 0, 0,
   97, 98, 0, 0, 0, 0, 0, 0,
   0, 0, 0, 0, 0, 0, 0, 0, 0, 0, 0, 0, 0, 0, 0, 0, 0, 0, 0, 0,
   0, 0, 0, 0, 0, 0, 0, 0, 0, 0, 0, 0, 0, 0, 0, 0, 0, 0, 0, 0,
   5, 6, 7, 0, 0, 0, 0, 0]

/-- C6 witness: on the concrete archive fragment the payload offset is the
position right after the trailer (112) and the final position is
112 + 3 + 5 = 120. -/
theorem read_next_record_offsets_witness :
    ∃ rec s5, read_next_record ⟨c6data, none, 0⟩ = (.ok rec, s5) ∧
      rec.file_position = 112 % 4294967296 := by
  obtain ⟨rec, s5, h1, h2, _⟩ := read_next_record_offsets ⟨c6data, none, 0⟩
    ((c6data.drop 0).take 64) [97, 98] ⟨c6data, none, 112⟩ (by decide) (by decide)
  exact ⟨rec, s5, h1, h2⟩

end Bff
